import Mathlib

/-!
Verification development for the providers admin screen
(`web/client/src/app/providers/page.tsx`): the schema-driven configuration
engine (value coercion, payload collection, initial value construction, form
submission gating) and the instrument browser pipeline (filter, pager,
selection resynchronisation, page-reset-on-query-change).

Modelling conventions:
* JavaScript strings are modelled as Lean `String` (a list of characters);
  `trim`, `toLowerCase` and `includes` are modelled by the list-level
  functions `jsTrim`, `jsToLower` and `jsIncludes` below (ASCII case folding;
  the screen only compares operator-typed ASCII text).
* JavaScript numbers produced by `Number.parseInt` are modelled exactly as
  integers (the screen never feeds strings long enough to lose float
  precision); `Number.parseFloat` results are represented by the decimal
  literal they consume, since no property inspects the numeric value.
* JavaScript objects used as string-keyed records are modelled as association
  lists with unique keys; property assignment is `objSet` (update in place or
  append), property read is `List.lookup`.
* React state updates are modelled as pure functions from old state to new
  state; an event step runs the state update followed by one pass of the
  effect cascade in source order.
-/

/-- Character-list model of `String.prototype.trim`: drop whitespace from both
ends. -/
def dropTrailing (p : Char → Bool) (l : List Char) : List Char :=
  (l.reverse.dropWhile p).reverse

def jsTrim (s : String) : String :=
  ⟨dropTrailing Char.isWhitespace (s.data.dropWhile Char.isWhitespace)⟩

/-- Character-list model of `String.prototype.toLowerCase` (ASCII folding). -/
def jsToLower (s : String) : String :=
  ⟨s.data.map Char.toLower⟩

/-- Boolean test that `needle` occurs at the very start of `hay`. -/
def leadSeg : List Char → List Char → Bool
  | [], _ => true
  | _ :: _, [] => false
  | a :: as, b :: bs => a == b && leadSeg as bs

/-- Boolean test that `needle` occurs contiguously somewhere inside `hay`. -/
def hasSeg (needle : List Char) : List Char → Bool
  | [] => leadSeg needle []
  | b :: bs => leadSeg needle (b :: bs) || hasSeg needle bs

/-- Model of `hay.includes(needle)` from JavaScript. -/
def jsIncludes (hay needle : String) : Bool :=
  hasSeg needle.data hay.data

/-- Propositional form of contiguous containment, used in specifications. -/
def SubSeg (needle hay : List Char) : Prop :=
  ∃ pre post, hay = pre ++ needle ++ post

/-- Numeric value of a list of decimal digit characters, most significant
first. -/
def digitsVal (ds : List Char) : Nat :=
  ds.foldl (fun a c => 10 * a + (c.toNat - 48)) 0

/-- Longest leading run of decimal digits of `cs`, as a number; `none` when
`cs` does not start with a digit. -/
def digitsPart (cs : List Char) : Option Nat :=
  match cs.takeWhile Char.isDigit with
  | [] => none
  | ds => some (digitsVal ds)

/-- Character-level body of `Number.parseInt(s, 10)`: an optional single sign
followed by the longest run of decimal digits; NaN (here `none`) when that
run is empty. -/
def jsParseIntCore : List Char → Option Int
  | [] => none
  | c :: cs =>
    if c = '-' then (digitsPart cs).map (fun n => -(Int.ofNat n))
    else if c = '+' then (digitsPart cs).map (fun n => Int.ofNat n)
    else (digitsPart (c :: cs)).map (fun n => Int.ofNat n)

/-- Model of `Number.parseInt(s, 10)`. The source always passes an already
trimmed string, so parseInt's own leading-whitespace skip is a no-op and is
not repeated here. -/
def jsParseInt (s : String) : Option Int :=
  jsParseIntCore s.data

/-- Exponent part of a JavaScript decimal literal: `[eE][+-]?digits`.
Returns the consumed characters and the rest; consumes nothing when the
exponent is absent or incomplete. -/
def expSplit (cs : List Char) : List Char × List Char :=
  match cs with
  | [] => ([], cs)
  | e :: rest =>
    if e = 'e' ∨ e = 'E' then
      match rest with
      | [] => ([], cs)
      | s :: rest2 =>
        if s = '+' ∨ s = '-' then
          match rest2.takeWhile Char.isDigit with
          | [] => ([], cs)
          | ds => (e :: s :: ds, rest2.dropWhile Char.isDigit)
        else
          match rest.takeWhile Char.isDigit with
          | [] => ([], cs)
          | ds => (e :: ds, rest.dropWhile Char.isDigit)
    else ([], cs)

/-- Mantissa of a JavaScript decimal literal: `digits [. digits?] | . digits`.
Returns the consumed characters and the rest, or `none` when no mantissa is
present. -/
def mantissaSplit (cs : List Char) : Option (List Char × List Char) :=
  let intDs := cs.takeWhile Char.isDigit
  let afterInt := cs.dropWhile Char.isDigit
  match afterInt with
  | '.' :: rest =>
    let fracDs := rest.takeWhile Char.isDigit
    if intDs = [] ∧ fracDs = [] then none
    else some (intDs ++ '.' :: fracDs, rest.dropWhile Char.isDigit)
  | _ => if intDs = [] then none else some (intDs, afterInt)

/-- Model of `Number.parseFloat(s)` on an already trimmed string: the longest
leading decimal literal (optional sign, mantissa, optional exponent, or
`Infinity`), represented by the characters it consumes; `none` models NaN. -/
def jsParseFloat (s : String) : Option String :=
  match s.data with
  | [] => none
  | c :: cs =>
    let sr : List Char × List Char :=
      if c = '-' ∨ c = '+' then ([c], cs) else ([], c :: cs)
    if leadSeg "Infinity".data sr.2 then some ⟨sr.1 ++ "Infinity".data⟩
    else
      match mantissaSplit sr.2 with
      | none => none
      | some (mant, after) => some ⟨sr.1 ++ mant ++ (expSplit after).1⟩

/-- Model of the JavaScript values that can appear in `Record<string, unknown>`
settings maps and in schema defaults. Objects and arrays are carried by their
canonical JSON serialisation, which is all `valueToString` uses of them. -/
inductive JsValue where
  | jundef
  | jnull
  | jstr (s : String)
  | jbool (b : Bool)
  | jint (n : Int)
  | jobj (serialized : String)
deriving DecidableEq

/-- Field declaration of an adapter settings schema
(`SettingsSchema` in `lib/types.ts`). -/
structure SettingsSchema where
  name : String
  type : String
  default : Option JsValue
  required : Bool
deriving DecidableEq

/-- Adapter metadata; only the parts this screen reads. -/
structure AdapterMetadata where
  identifier : String
  displayName : String
  settingsSchema : List SettingsSchema
deriving DecidableEq

/-- Instrument snapshot; only the fields the filter/selection logic reads.
`base_currency`/`quote_currency` are the legacy names read through the index
signature in the source. -/
structure Instrument where
  symbol : String
  baseAsset : Option String
  base_currency : Option String
  quoteAsset : Option String
  quote_currency : Option String
deriving DecidableEq

/-- Source `instrumentBaseValue`: primary field, then legacy field, then
empty string. -/
def instrumentBaseValue (instrument : Instrument) : String :=
  (instrument.baseAsset.or instrument.base_currency).getD ""

/-- Source `instrumentQuoteValue`. -/
def instrumentQuoteValue (instrument : Instrument) : String :=
  (instrument.quoteAsset.or instrument.quote_currency).getD ""

def INSTRUMENTS_PAGE_SIZE : Nat := 120

/-- Typed value produced by the coercer. Floats carry the decimal literal
consumed by `parseFloat` (no property inspects the numeric value). -/
inductive ConfigValue where
  | vInt (n : Int)
  | vFloat (lit : String)
  | vBool (b : Bool)
  | vStr (s : String)
deriving DecidableEq

/-- Result shape of `parseConfigValue`: `{ value?: unknown; error?: string }`
with exactly one of the two present. -/
inductive ParseResult where
  | ok (value : ConfigValue)
  | err (message : String)
deriving DecidableEq

/-- Source `parseConfigValue`: coerce one raw string against one schema
field. -/
def parseConfigValue (setting : SettingsSchema) (raw : String) : ParseResult :=
  let kind := jsToLower setting.type
  let trimmed := jsTrim raw
  if kind = "int" ∨ kind = "integer" then
    match jsParseInt trimmed with
    | none => .err (setting.name ++ " must be an integer")
    | some n => .ok (.vInt n)
  else if kind = "float" ∨ kind = "double" ∨ kind = "number" then
    match jsParseFloat trimmed with
    | none => .err (setting.name ++ " must be a number")
    | some lit => .ok (.vFloat lit)
  else if kind = "bool" ∨ kind = "boolean" then
    let normalized := jsToLower trimmed
    if (["true", "1", "yes", "on"] : List String).contains normalized then
      .ok (.vBool true)
    else if (["false", "0", "no", "off"] : List String).contains normalized then
      .ok (.vBool false)
    else .err (setting.name ++ " must be a boolean")
  else .ok (.vStr raw)

/-- JavaScript object property assignment on an association-list record:
update the existing entry in place, else append. -/
def objSet {α : Type} (l : List (String × α)) (k : String) (v : α) :
    List (String × α) :=
  match l with
  | [] => [(k, v)]
  | (k', v') :: t => if k' = k then (k, v) :: t else (k', v') :: objSet t k v

/-- Result shape of `collectConfigPayload`: `{ config, error? }`; the source
returns an empty config alongside an error, so an error constructor carrying
only the message is faithful. -/
inductive CollectResult where
  | ok (config : List (String × ConfigValue))
  | err (message : String)
deriving DecidableEq

/-- Loop body of `collectConfigPayload`, iterating schema fields in order and
accumulating the config object. -/
def collectGo (configValues : List (String × String)) :
    List SettingsSchema → List (String × ConfigValue) → CollectResult
  | [], config => .ok config
  | setting :: rest, config =>
    let rawValue := (configValues.lookup setting.name).getD ""
    if jsTrim rawValue = "" then
      if setting.required then .err (setting.name ++ " is required")
      else collectGo configValues rest config
    else
      match parseConfigValue setting rawValue with
      | .err e => .err e
      | .ok v => collectGo configValues rest (objSet config setting.name v)

/-- Source `collectConfigPayload`. -/
def collectConfigPayload (metadata : AdapterMetadata)
    (configValues : List (String × String)) : CollectResult :=
  collectGo configValues metadata.settingsSchema []

/-- Source `valueToString`: null/undefined to empty string, objects to their
JSON serialisation, everything else to its natural string form. -/
def valueToString : JsValue → String
  | .jundef => ""
  | .jnull => ""
  | .jobj serialized => serialized
  | .jstr s => s
  | .jbool b => if b then "true" else "false"
  | .jint n => toString n

/-- Value chosen for one schema field by `buildConfigValues`: existing value
if the existing record has the property, else a declared non-null default,
else the empty string. -/
def buildOne (existing : Option (List (String × JsValue)))
    (setting : SettingsSchema) : String :=
  match existing.bind (fun ex => ex.lookup setting.name) with
  | some v => valueToString v
  | none =>
    match setting.default with
    | some d => if d = JsValue.jnull then "" else valueToString d
    | none => ""

/-- Source `buildConfigValues`. -/
def buildConfigValues (metadata : Option AdapterMetadata)
    (existing : Option (List (String × JsValue))) : List (String × String) :=
  match metadata with
  | none => []
  | some m =>
    m.settingsSchema.foldl
      (fun values setting => objSet values setting.name (buildOne existing setting)) []

/-- Form dialog state (`FormState` in the source). -/
structure FormState where
  name : String
  adapter : String
  configValues : List (String × String)
  enabled : Bool
deriving DecidableEq

/-- Source `handleAdapterChange`: record the identifier and rebuild the value
map from the newly selected adapter's schema, with no existing values. -/
def handleAdapterChange (adapters : List AdapterMetadata) (prev : FormState)
    (identifier : String) : FormState :=
  let metadata := adapters.find? (fun adapter => adapter.identifier == identifier)
  { prev with adapter := identifier, configValues := buildConfigValues metadata none }

/-- Payload sent to the facade on a successful submit. -/
structure ProviderRequest where
  name : String
  adapterIdentifier : String
  config : List (String × ConfigValue)
  enabled : Bool
deriving DecidableEq

/-- Outcome of one run of `handleFormSubmit`: either the submission is blocked
with an inline form error before any network call, or the request is issued
with the given payload. -/
inductive SubmitOutcome where
  | blocked (message : String)
  | submitted (payload : ProviderRequest)
deriving DecidableEq

/-- Source `handleFormSubmit` up to the network call: precondition checks in
order, then payload collection; the network request is issued only when all
checks pass. -/
def handleFormSubmit (adapters : List AdapterMetadata) (st : FormState) :
    SubmitOutcome :=
  let trimmedName := jsTrim st.name
  if trimmedName = "" then .blocked "Provider name is required"
  else
    match adapters.find? (fun adapter => adapter.identifier == st.adapter) with
    | none => .blocked "Adapter selection is required"
    | some selectedAdapter =>
      match collectConfigPayload selectedAdapter st.configValues with
      | .err e => .blocked e
      | .ok config =>
        .submitted ⟨trimmedName, selectedAdapter.identifier, config, st.enabled⟩

/-- Source `filteredInstruments` memo: full list on an empty trimmed query,
else the substring filter over lowercased symbol/base/quote. -/
def filteredInstruments (instruments : List Instrument) (instrumentQuery : String) :
    List Instrument :=
  let query := jsToLower (jsTrim instrumentQuery)
  if query = "" then instruments
  else
    instruments.filter (fun instrument =>
      let symbol := jsToLower instrument.symbol
      let base := jsToLower (instrumentBaseValue instrument)
      let quote := jsToLower (instrumentQuoteValue instrument)
      jsIncludes symbol query || jsIncludes base query || jsIncludes quote query)

/-- Derived pager values (source lines computing `totalInstrumentPages`,
`effectiveInstrumentPage`, `currentPageInstruments`, `pageDisplayStart`,
`pageDisplayEnd`). -/
structure PageView where
  totalInstrumentPages : Nat
  effectiveInstrumentPage : Nat
  pageStart : Nat
  currentPageInstruments : List Instrument
  pageDisplayStart : Nat
  pageDisplayEnd : Nat
deriving DecidableEq

/-- The pager derivation. `Math.ceil(total / size)` on naturals is
`(total + size - 1) / size`. -/
def paginate (filtered : List Instrument) (requestedPage : Nat) : PageView :=
  let totalInstrumentCount := filtered.length
  let totalInstrumentPages :=
    if totalInstrumentCount = 0 then 0
    else (totalInstrumentCount + (INSTRUMENTS_PAGE_SIZE - 1)) / INSTRUMENTS_PAGE_SIZE
  let effectiveInstrumentPage :=
    if totalInstrumentPages = 0 then 0 else min requestedPage (totalInstrumentPages - 1)
  let pageStart := effectiveInstrumentPage * INSTRUMENTS_PAGE_SIZE
  let currentPageInstruments := (filtered.drop pageStart).take INSTRUMENTS_PAGE_SIZE
  { totalInstrumentPages := totalInstrumentPages
    effectiveInstrumentPage := effectiveInstrumentPage
    pageStart := pageStart
    currentPageInstruments := currentPageInstruments
    pageDisplayStart := if totalInstrumentCount = 0 then 0 else pageStart + 1
    pageDisplayEnd :=
      if totalInstrumentCount = 0 then 0 else pageStart + currentPageInstruments.length }

/-- Pure selection resolution on a nonempty-or-empty page slice: none on an
empty slice; first element when nothing was selected; the (first) element
with the previously selected symbol when present; else the first element. -/
def resyncSelection (slice : List Instrument) (prev : Option Instrument) :
    Option Instrument :=
  match slice, prev with
  | [], _ => none
  | x :: _, none => some x
  | x :: xs, some p =>
    match (x :: xs).find? (fun instrument => instrument.symbol == p.symbol) with
    | some m => some m
    | none => some x

/-- The selection resynchronisation effect (source effect over
`[filteredInstruments, instrumentPage, selectedInstrument]`): clear the
selection when nothing is visible, otherwise recompute the current slice and
resolve the selection against it. The effect leaves the selection untouched
when the recomputed slice is empty (unreachable for a nonempty filtered
list). -/
def selectionResyncEffect (filtered : List Instrument) (page : Nat)
    (prev : Option Instrument) : Option Instrument :=
  if filtered.length = 0 then none
  else
    let maxPage :=
      max 0 ((filtered.length + (INSTRUMENTS_PAGE_SIZE - 1)) / INSTRUMENTS_PAGE_SIZE - 1)
    let currentPage := min page maxPage
    let start := currentPage * INSTRUMENTS_PAGE_SIZE
    let currentSlice := (filtered.drop start).take INSTRUMENTS_PAGE_SIZE
    match currentSlice with
    | [] => prev
    | x :: xs => resyncSelection (x :: xs) prev

/-- The page clamping effect (source effect over
`[filteredInstruments.length, instrumentPage]`). -/
def clampPageEffect (total : Nat) (page : Nat) : Nat :=
  if total = 0 then 0
  else
    let maxPage := max 0 ((total + (INSTRUMENTS_PAGE_SIZE - 1)) / INSTRUMENTS_PAGE_SIZE - 1)
    if page > maxPage then maxPage else page

/-- Instrument browser view state (`instrumentQuery`, `instrumentPage`,
`selectedInstrument`). -/
structure ViewState where
  query : String
  page : Nat
  selected : Option Instrument
deriving DecidableEq

/-- One step of the view state machine for an operator edit of the query:
store the new query, then run the effect cascade in source order — the
page-reset effect keyed on the query, the page clamp effect, and the
selection resynchronisation effect. -/
def setQueryEvent (instruments : List Instrument) (st : ViewState) (q : String) :
    ViewState :=
  let afterQuery : ViewState := { st with query := q }
  let afterReset : ViewState := { afterQuery with page := 0 }
  let filtered := filteredInstruments instruments q
  let afterClamp : ViewState :=
    { afterReset with page := clampPageEffect filtered.length afterReset.page }
  { afterClamp with
    selected := selectionResyncEffect filtered afterClamp.page afterClamp.selected }

/-- View state installed by the effects that run when the detail dialog is
closed or switched to another provider: query, page and selection all reset. -/
def detailResetState : ViewState :=
  { query := "", page := 0, selected := none }

/-- Raw string read for one schema field by `collectConfigPayload`:
`configValues[setting.name] ?? ''`. -/
def fieldRaw (configValues : List (String × String)) (setting : SettingsSchema) :
    String :=
  (configValues.lookup setting.name).getD ""

/-! Concrete sample data used by witness theorems. -/

/-- Sample integer-typed schema field. -/
def sampleIntField : SettingsSchema :=
  { name := "port", type := "int", default := none, required := true }

/-- Sample required text field named `a`. -/
def sampleFieldA : SettingsSchema :=
  { name := "a", type := "string", default := none, required := true }

/-- Sample optional text field named `b`. -/
def sampleFieldB : SettingsSchema :=
  { name := "b", type := "string", default := none, required := false }

/-- Sample adapter with one required and one optional field. -/
def sampleAdapter : AdapterMetadata :=
  { identifier := "ad1", displayName := "Adapter One",
    settingsSchema := [sampleFieldA, sampleFieldB] }

/-- Sample adapter whose first field declares a default. -/
def sampleAdapterB : AdapterMetadata :=
  { identifier := "ad2", displayName := "Adapter Two",
    settingsSchema :=
      [{ name := "host", type := "string", default := some (.jstr "localhost"),
         required := false },
       { name := "apiKey", type := "string", default := none, required := true }] }

def instBTC : Instrument :=
  { symbol := "BTCUSDT", baseAsset := some "BTC", base_currency := none,
    quoteAsset := some "USDT", quote_currency := none }

def instETH : Instrument :=
  { symbol := "ETHUSDT", baseAsset := some "ETH", base_currency := none,
    quoteAsset := some "USDT", quote_currency := none }

def instXRP : Instrument :=
  { symbol := "XRPUSDT", baseAsset := some "XRP", base_currency := none,
    quoteAsset := some "USDT", quote_currency := none }

/-- Anonymous placeholder instrument for bulk pagination examples. -/
def sampleInstrument : Instrument :=
  { symbol := "S", baseAsset := none, base_currency := none,
    quoteAsset := none, quote_currency := none }

/-! Grammar-level characterisation of the integer coercion path. -/

/-- An optional single leading sign character. -/
def SignOpt (sgn : List Char) : Prop :=
  sgn = [] ∨ sgn = ['+'] ∨ sgn = ['-']

/-- Decomposition of a character list as an optional sign, a maximal nonempty
run of decimal digits, and a remainder that does not start with a digit; `n`
is the signed value of the digit run. -/
def IntLeadDecomp (l : List Char) (n : Int) : Prop :=
  ∃ sgn ds rest, l = sgn ++ ds ++ rest ∧ SignOpt sgn ∧ ds ≠ [] ∧
    (∀ c ∈ ds, c.isDigit = true) ∧
    (∀ c, rest.head? = some c → c.isDigit = false) ∧
    n = (if sgn = ['-'] then -(digitsVal ds : Int) else (digitsVal ds : Int))

/-- The list begins with an optional sign followed by at least one decimal
digit. -/
def BeginsWithInt (l : List Char) : Prop :=
  ∃ sgn d t, l = sgn ++ d :: t ∧ SignOpt sgn ∧ d.isDigit = true

/-! Helper lemmas about the character-list primitives. -/

theorem head?_dropWhile_not (p : Char → Bool) (l : List Char) (c : Char)
    (h : (l.dropWhile p).head? = some c) : p c = false := by
  induction l with
  | nil => simp [List.dropWhile] at h
  | cons a t ih =>
    rw [List.dropWhile_cons] at h
    by_cases hp : p a
    · simp [hp] at h
      exact ih h
    · simp [hp] at h
      subst h
      simpa using hp

theorem takeWhile_split_of (p : Char → Bool) (ds rest : List Char)
    (h1 : ∀ c ∈ ds, p c = true) (h2 : ∀ c, rest.head? = some c → p c = false) :
    (ds ++ rest).takeWhile p = ds ∧ (ds ++ rest).dropWhile p = rest := by
  induction ds with
  | nil =>
    cases rest with
    | nil => simp
    | cons r t =>
      have hr : p r = false := h2 r rfl
      simp [List.takeWhile_cons, List.dropWhile_cons, hr]
  | cons d ds' ih =>
    have hd : p d = true := h1 d (by simp)
    have ih' := ih (fun c hc => h1 c (by simp [hc]))
    simp [List.takeWhile_cons, List.dropWhile_cons, hd, ih'.1, ih'.2]

theorem takeWhile_eq_nil_iff_head (p : Char → Bool) (l : List Char) :
    l.takeWhile p = [] ↔ ∀ c, l.head? = some c → p c = false := by
  cases l with
  | nil => simp
  | cons a t =>
    rw [List.takeWhile_cons]
    by_cases hp : p a
    · simp [hp]
    · simp only [Bool.not_eq_true] at hp
      simp [hp]

theorem leadSeg_iff (needle hay : List Char) :
    leadSeg needle hay = true ↔ ∃ t, hay = needle ++ t := by
  induction needle generalizing hay with
  | nil => simp [leadSeg]
  | cons a as ih =>
    cases hay with
    | nil =>
      simp only [leadSeg, List.cons_append]
      constructor
      · intro h
        exact absurd h (by simp)
      · rintro ⟨t, h⟩
        exact absurd h (by simp)
    | cons b bs =>
      simp only [leadSeg, Bool.and_eq_true, beq_iff_eq, ih, List.cons_append,
        List.cons.injEq]
      constructor
      · rintro ⟨rfl, t, rfl⟩
        exact ⟨t, rfl, rfl⟩
      · rintro ⟨t, rfl, rfl⟩
        exact ⟨rfl, t, rfl⟩

theorem subSeg_cons_iff (n : List Char) (b : Char) (bs : List Char) :
    SubSeg n (b :: bs) ↔ (∃ t, b :: bs = n ++ t) ∨ SubSeg n bs := by
  constructor
  · rintro ⟨pre, post, h⟩
    cases pre with
    | nil => exact Or.inl ⟨post, by simpa using h⟩
    | cons p pre' =>
      simp only [List.cons_append, List.cons.injEq] at h
      exact Or.inr ⟨pre', post, by simp [h.2]⟩
  · rintro (⟨t, h⟩ | ⟨pre, post, h⟩)
    · exact ⟨[], t, by simpa using h⟩
    · exact ⟨b :: pre, post, by simp [h]⟩

theorem hasSeg_iff (needle hay : List Char) :
    hasSeg needle hay = true ↔ SubSeg needle hay := by
  induction hay with
  | nil =>
    simp only [hasSeg, leadSeg_iff, SubSeg]
    constructor
    · rintro ⟨t, h⟩
      rcases List.append_eq_nil.mp h.symm with ⟨h1, h2⟩
      exact ⟨[], [], by simp [h1, h2]⟩
    · rintro ⟨pre, post, h⟩
      rcases List.append_eq_nil.mp h.symm with ⟨h1, h2⟩
      rcases List.append_eq_nil.mp h1 with ⟨h3, h4⟩
      exact ⟨[], by simp [h4]⟩
  | cons b bs ih =>
    simp only [hasSeg, Bool.or_eq_true, leadSeg_iff, ih, subSeg_cons_iff]

theorem jsIncludes_iff (hay needle : String) :
    jsIncludes hay needle = true ↔ SubSeg needle.data hay.data := by
  simpa [jsIncludes] using hasSeg_iff needle.data hay.data

theorem digitsPart_of_split (ds rest : List Char) (hne : ds ≠ [])
    (hds : ∀ c ∈ ds, c.isDigit = true)
    (hrest : ∀ c, rest.head? = some c → c.isDigit = false) :
    digitsPart (ds ++ rest) = some (digitsVal ds) := by
  unfold digitsPart
  rw [(takeWhile_split_of Char.isDigit ds rest hds hrest).1]
  cases ds with
  | nil => exact absurd rfl hne
  | cons d t => rfl

theorem digitsPart_none_of (cs : List Char)
    (h : ∀ c, cs.head? = some c → c.isDigit = false) : digitsPart cs = none := by
  unfold digitsPart
  rw [(takeWhile_eq_nil_iff_head Char.isDigit cs).mpr h]

theorem digitsPart_some_decomp (cs : List Char) (n : Nat)
    (h : digitsPart cs = some n) :
    ∃ ds rest, cs = ds ++ rest ∧ ds ≠ [] ∧ (∀ c ∈ ds, c.isDigit = true) ∧
      (∀ c, rest.head? = some c → c.isDigit = false) ∧ n = digitsVal ds := by
  refine ⟨cs.takeWhile Char.isDigit, cs.dropWhile Char.isDigit,
    (List.takeWhile_append_dropWhile Char.isDigit cs).symm, ?_,
    fun c hc => List.mem_takeWhile_imp hc,
    fun c hc => head?_dropWhile_not Char.isDigit cs c hc, ?_⟩
  · intro hnil
    rw [digitsPart, hnil] at h
    exact Option.noConfusion h
  · unfold digitsPart at h
    cases hds : cs.takeWhile Char.isDigit with
    | nil => rw [hds] at h; exact Option.noConfusion h
    | cons d t =>
      rw [hds] at h
      exact (Option.some.inj h).symm

theorem digit_ne_dash {d : Char} (h : d.isDigit = true) : d ≠ '-' := by
  intro hd
  subst hd
  exact absurd h (by decide)

theorem digit_ne_plus {d : Char} (h : d.isDigit = true) : d ≠ '+' := by
  intro hd
  subst hd
  exact absurd h (by decide)

theorem jsParseIntCore_of_decomp (l : List Char) (n : Int)
    (h : IntLeadDecomp l n) : jsParseIntCore l = some n := by
  obtain ⟨sgn, ds, rest, rfl, hsgn, hne, hds, hrest, hn⟩ := h
  have hdp := digitsPart_of_split ds rest hne hds hrest
  rcases hsgn with rfl | rfl | rfl
  · cases ds with
    | nil => exact absurd rfl hne
    | cons d t =>
      have hdig : d.isDigit = true := hds d (by simp)
      simp only [List.nil_append, List.cons_append] at hdp ⊢
      rw [jsParseIntCore, if_neg (digit_ne_dash hdig), if_neg (digit_ne_plus hdig)]
      rw [hdp]
      simp at hn ⊢
      exact hn.symm
  · simp only [List.cons_append, List.nil_append]
    rw [jsParseIntCore, if_neg (by decide : ('+' : Char) ≠ '-'), if_pos rfl, hdp]
    simp at hn ⊢
    exact hn.symm
  · simp only [List.cons_append, List.nil_append]
    rw [jsParseIntCore, if_pos rfl, hdp]
    simp at hn ⊢
    exact hn.symm

theorem jsParseIntCore_eq_none (l : List Char) (h : ¬ BeginsWithInt l) :
    jsParseIntCore l = none := by
  cases l with
  | nil => rfl
  | cons c cs =>
    have hnone : ∀ (sgn : List Char), SignOpt sgn →
        (∀ rest2, c :: cs = sgn ++ rest2 → digitsPart rest2 = none) := by
      intro sgn hsgn rest2 heq
      apply digitsPart_none_of
      intro c' hc'
      by_contra hdig
      rw [Bool.not_eq_false] at hdig
      cases rest2 with
      | nil => exact Option.noConfusion hc'
      | cons a t =>
        have ha : a = c' := by simpa using hc'
        subst ha
        exact h ⟨sgn, a, t, heq, hsgn, hdig⟩
    rw [jsParseIntCore]
    by_cases hc : c = '-'
    · subst hc
      rw [if_pos rfl, hnone ['-'] (by simp [SignOpt]) cs rfl]
      rfl
    · rw [if_neg hc]
      by_cases hc' : c = '+'
      · subst hc'
        rw [if_pos rfl, hnone ['+'] (by simp [SignOpt]) cs rfl]
        rfl
      · rw [if_neg hc', hnone [] (by simp [SignOpt]) (c :: cs) rfl]
        rfl

theorem begins_exists_decomp (l : List Char) (h : BeginsWithInt l) :
    ∃ n, IntLeadDecomp l n := by
  obtain ⟨sgn, d, t, rfl, hsgn, hdig⟩ := h
  refine ⟨(if sgn = ['-'] then -(digitsVal ((d :: t).takeWhile Char.isDigit) : Int)
      else (digitsVal ((d :: t).takeWhile Char.isDigit) : Int)),
    sgn, (d :: t).takeWhile Char.isDigit, (d :: t).dropWhile Char.isDigit, ?_,
    hsgn, ?_, fun c hc => List.mem_takeWhile_imp hc,
    fun c hc => head?_dropWhile_not Char.isDigit (d :: t) c hc, rfl⟩
  · rw [List.append_assoc, List.takeWhile_append_dropWhile]
  · rw [List.takeWhile_cons, if_pos hdig]
    simp

/-! Claims C1 and C10: the integer coercion path. -/

theorem parseConfigValue_int_eq (setting : SettingsSchema) (raw : String)
    (h : jsToLower setting.type = "int" ∨ jsToLower setting.type = "integer") :
    parseConfigValue setting raw =
      (match jsParseInt (jsTrim raw) with
       | none => ParseResult.err (setting.name ++ " must be an integer")
       | some n => ParseResult.ok (.vInt n)) := by
  simp only [parseConfigValue]
  rw [if_pos h]

theorem not_begins_of_core_none (l : List Char) (h : jsParseIntCore l = none) :
    ¬ BeginsWithInt l := by
  intro hb
  obtain ⟨n, hd⟩ := begins_exists_decomp l hb
  rw [jsParseIntCore_of_decomp l n hd] at h
  exact Option.noConfusion h

/-- Claim C1 counterexample: on an int-typed field, `coerce` of the fractional
input `"1.5"` does not produce the integer field error — it succeeds with the
value `1`, contradicting the claim that fractional input fails. -/
theorem parseConfigValue_int_fractional_counterexample :
    parseConfigValue sampleIntField "1.5" = ParseResult.ok (ConfigValue.vInt 1) ∧
    parseConfigValue sampleIntField "1.5" ≠
      ParseResult.err (sampleIntField.name ++ " must be an integer") := by
  decide

/-- Claim C1 (amended): for every field whose type tag lowercases to `int` or
`integer`, `coerce` parses the trimmed raw with JavaScript `parseInt`
semantics: it fails with `FieldError("<name> must be an integer")` exactly
when the trimmed raw does not begin with an optional sign followed by a
decimal digit, and otherwise returns the signed value of the longest leading
digit run — so `"12"` coerces to `12` and `"abc"` errors, but fractional
input such as `"1.5"` coerces to `1` rather than erroring. -/
theorem parseConfigValue_int_amended :
    ∀ (setting : SettingsSchema) (raw : String),
      (jsToLower setting.type = "int" ∨ jsToLower setting.type = "integer") →
      ((¬ BeginsWithInt (jsTrim raw).data) ↔
        parseConfigValue setting raw =
          .err (setting.name ++ " must be an integer")) ∧
      (∀ n, IntLeadDecomp (jsTrim raw).data n →
        parseConfigValue setting raw = .ok (.vInt n)) ∧
      parseConfigValue sampleIntField "12" = .ok (.vInt 12) ∧
      parseConfigValue sampleIntField "abc" = .err "port must be an integer" ∧
      parseConfigValue sampleIntField "1.5" = .ok (.vInt 1) := by
  intro setting raw h
  refine ⟨⟨?_, ?_⟩, ?_, by decide, by decide, by decide⟩
  · intro hnb
    rw [parseConfigValue_int_eq setting raw h]
    rw [show jsParseInt (jsTrim raw) = none from jsParseIntCore_eq_none _ hnb]
  · intro herr hb
    obtain ⟨n, hd⟩ := begins_exists_decomp _ hb
    rw [parseConfigValue_int_eq setting raw h,
      show jsParseInt (jsTrim raw) = some n from jsParseIntCore_of_decomp _ n hd]
      at herr
    exact ParseResult.noConfusion herr
  · intro n hd
    rw [parseConfigValue_int_eq setting raw h,
      show jsParseInt (jsTrim raw) = some n from jsParseIntCore_of_decomp _ n hd]

/-- Witness for the amended C1 theorem: the int field `port` with raw
`"42x"`, whose trimmed form begins with the digits `42`. -/
theorem parseConfigValue_int_amended_witness :
    (jsToLower sampleIntField.type = "int" ∨
      jsToLower sampleIntField.type = "integer") ∧
    parseConfigValue sampleIntField "42x" = ParseResult.ok (ConfigValue.vInt 42) :=
  ⟨Or.inl (by decide),
   (parseConfigValue_int_amended sampleIntField "42x" (Or.inl (by decide))).2.1 42
     ⟨[], ['4', '2'], ['x'], by decide, Or.inl rfl, by decide, by decide,
      by intro c hc; simp at hc; subst hc; decide, by decide⟩⟩

/-- Claim C10: for every field whose type tag lowercases to `int` or
`integer`, `coerce` succeeds on any raw whose trimmed form begins with an
optional sign followed by at least one decimal digit, returning the signed
value of the longest leading digit run (`"1.5"` gives `1`, `"12abc"` gives
`12`), and produces the integer field error exactly when no such leading
integer exists. -/
theorem parseConfigValue_int_leading_spec :
    ∀ (setting : SettingsSchema) (raw : String),
      (jsToLower setting.type = "int" ∨ jsToLower setting.type = "integer") →
      (∀ n, IntLeadDecomp (jsTrim raw).data n →
        parseConfigValue setting raw = .ok (.vInt n)) ∧
      (BeginsWithInt (jsTrim raw).data →
        ∃ n, IntLeadDecomp (jsTrim raw).data n ∧
          parseConfigValue setting raw = .ok (.vInt n)) ∧
      (¬ BeginsWithInt (jsTrim raw).data →
        parseConfigValue setting raw =
          .err (setting.name ++ " must be an integer")) := by
  intro setting raw h
  refine ⟨?_, ?_, ?_⟩
  · intro n hd
    rw [parseConfigValue_int_eq setting raw h,
      show jsParseInt (jsTrim raw) = some n from jsParseIntCore_of_decomp _ n hd]
  · intro hb
    obtain ⟨n, hd⟩ := begins_exists_decomp _ hb
    refine ⟨n, hd, ?_⟩
    rw [parseConfigValue_int_eq setting raw h,
      show jsParseInt (jsTrim raw) = some n from jsParseIntCore_of_decomp _ n hd]
  · intro hnb
    rw [parseConfigValue_int_eq setting raw h,
      show jsParseInt (jsTrim raw) = none from jsParseIntCore_eq_none _ hnb]

/-- Witness for C10: `"1.5"` coerces to `1`, and `"abc"` (no leading integer)
produces the field error. -/
theorem parseConfigValue_int_leading_spec_witness :
    parseConfigValue sampleIntField "1.5" = ParseResult.ok (ConfigValue.vInt 1) ∧
    parseConfigValue sampleIntField "abc" =
      ParseResult.err "port must be an integer" :=
  ⟨(parseConfigValue_int_leading_spec sampleIntField "1.5" (Or.inl (by decide))).1 1
     ⟨[], ['1'], ['.', '5'], by decide, Or.inl rfl, by decide, by decide,
      by intro c hc; simp at hc; subst hc; decide, by decide⟩,
   (parseConfigValue_int_leading_spec sampleIntField "abc"
      (Or.inl (by decide))).2.2 (not_begins_of_core_none _ (by decide))⟩

/-! Claim C4: the pager derivation. -/

theorem paginate_totalPages_def (filtered : List Instrument) (page : Nat) :
    (paginate filtered page).totalInstrumentPages =
      (if filtered.length = 0 then 0 else (filtered.length + 119) / 120) := rfl

theorem paginate_effectivePage_def (filtered : List Instrument) (page : Nat) :
    (paginate filtered page).effectiveInstrumentPage =
      (if (paginate filtered page).totalInstrumentPages = 0 then 0
       else min page ((paginate filtered page).totalInstrumentPages - 1)) := rfl

theorem paginate_pageStart_def (filtered : List Instrument) (page : Nat) :
    (paginate filtered page).pageStart =
      (paginate filtered page).effectiveInstrumentPage * 120 := rfl

theorem paginate_slice_def (filtered : List Instrument) (page : Nat) :
    (paginate filtered page).currentPageInstruments =
      (filtered.drop ((paginate filtered page).pageStart)).take 120 := rfl

theorem paginate_displayStart_def (filtered : List Instrument) (page : Nat) :
    (paginate filtered page).pageDisplayStart =
      (if filtered.length = 0 then 0 else (paginate filtered page).pageStart + 1) := rfl

theorem paginate_displayEnd_def (filtered : List Instrument) (page : Nat) :
    (paginate filtered page).pageDisplayEnd =
      (if filtered.length = 0 then 0
       else (paginate filtered page).pageStart +
         (paginate filtered page).currentPageInstruments.length) := rfl

theorem paginate_pageStart_lt (filtered : List Instrument) (page : Nat)
    (h : filtered.length ≠ 0) :
    (paginate filtered page).pageStart < filtered.length := by
  have htp : (paginate filtered page).totalInstrumentPages =
      (filtered.length + 119) / 120 := by
    rw [paginate_totalPages_def, if_neg h]
  have htp0 : (paginate filtered page).totalInstrumentPages ≠ 0 := by omega
  rw [paginate_pageStart_def, paginate_effectivePage_def, if_neg htp0, htp]
  omega

/-- Claim C4: with fixed page size 120, `totalPages` is the ceiling of
`len/120` (0 on an empty filtered list), `effectivePage` clamps the request
to `min requestedPage (totalPages - 1)` (0 when there are no pages, never an
error), the slice holds exactly the elements of positions
`[effectivePage*120, effectivePage*120 + 120)`, and the 1-based display
bounds are `pageStart + 1` and `pageStart + slice.length` (both 0 on an
empty filtered list). -/
theorem paginate_spec :
    ∀ (filtered : List Instrument) (page : Nat),
      (filtered = [] → (paginate filtered page).totalInstrumentPages = 0) ∧
      (filtered ≠ [] →
        filtered.length ≤
          (paginate filtered page).totalInstrumentPages * INSTRUMENTS_PAGE_SIZE ∧
        ((paginate filtered page).totalInstrumentPages - 1) *
          INSTRUMENTS_PAGE_SIZE < filtered.length) ∧
      ((paginate filtered page).totalInstrumentPages = 0 →
        (paginate filtered page).effectiveInstrumentPage = 0) ∧
      ((paginate filtered page).totalInstrumentPages ≠ 0 →
        (paginate filtered page).effectiveInstrumentPage =
          min page ((paginate filtered page).totalInstrumentPages - 1)) ∧
      (paginate filtered page).pageStart =
        (paginate filtered page).effectiveInstrumentPage * INSTRUMENTS_PAGE_SIZE ∧
      (paginate filtered page).currentPageInstruments.length =
        min INSTRUMENTS_PAGE_SIZE
          (filtered.length - (paginate filtered page).pageStart) ∧
      (∀ i, i < INSTRUMENTS_PAGE_SIZE →
        (paginate filtered page).currentPageInstruments[i]? =
          filtered[(paginate filtered page).pageStart + i]?) ∧
      (filtered = [] → (paginate filtered page).pageDisplayStart = 0 ∧
        (paginate filtered page).pageDisplayEnd = 0) ∧
      (filtered ≠ [] →
        (paginate filtered page).pageDisplayStart =
          (paginate filtered page).pageStart + 1 ∧
        (paginate filtered page).pageDisplayEnd + 1 =
          (paginate filtered page).pageDisplayStart +
            (paginate filtered page).currentPageInstruments.length ∧
        (paginate filtered page).currentPageInstruments ≠ []) := by
  intro filtered page
  refine ⟨?_, ?_, ?_, ?_, paginate_pageStart_def filtered page, ?_, ?_, ?_, ?_⟩
  · intro h
    rw [paginate_totalPages_def]
    simp [h]
  · intro h
    have hne : filtered.length ≠ 0 := by simpa using h
    rw [paginate_totalPages_def, if_neg hne]
    show filtered.length ≤ _ * 120 ∧ _ * 120 < filtered.length
    omega
  · intro h
    rw [paginate_effectivePage_def, if_pos h]
  · intro h
    rw [paginate_effectivePage_def, if_neg h]
  · rw [paginate_slice_def]
    simp [List.length_take, List.length_drop, INSTRUMENTS_PAGE_SIZE]
  · intro i hi
    have hi' : i < 120 := hi
    rw [paginate_slice_def, List.getElem?_take, if_pos hi', List.getElem?_drop]
  · intro h
    rw [paginate_displayStart_def, paginate_displayEnd_def]
    simp [h]
  · intro h
    have hne : filtered.length ≠ 0 := by simpa using h
    refine ⟨by rw [paginate_displayStart_def, if_neg hne], ?_, ?_⟩
    · rw [paginate_displayStart_def, paginate_displayEnd_def, if_neg hne,
        if_neg hne]
      omega
    · have hlt := paginate_pageStart_lt filtered page hne
      rw [paginate_slice_def]
      intro hnil
      have := congrArg List.length hnil
      simp only [List.length_take, List.length_drop, List.length_nil] at this
      omega

set_option maxRecDepth 8000 in
/-- Witness for C4: an empty filtered list at page 0 gives zero pages and
zero display bounds, and 250 instruments requested at page 5 give 3 total
pages and effective page 2. -/
theorem paginate_spec_witness :
    ((paginate ([] : List Instrument) 0).totalInstrumentPages = 0 ∧
     (paginate ([] : List Instrument) 0).effectiveInstrumentPage = 0 ∧
     (paginate ([] : List Instrument) 0).pageDisplayStart = 0 ∧
     (paginate ([] : List Instrument) 0).pageDisplayEnd = 0) ∧
    ((paginate (List.replicate 250 sampleInstrument) 5).totalInstrumentPages = 3 ∧
     (paginate (List.replicate 250 sampleInstrument) 5).effectiveInstrumentPage = 2 ∧
     (List.replicate 250 sampleInstrument).length ≤
       (paginate (List.replicate 250 sampleInstrument) 5).totalInstrumentPages *
         INSTRUMENTS_PAGE_SIZE ∧
     (paginate (List.replicate 250 sampleInstrument) 5).currentPageInstruments[0]? =
       (List.replicate 250 sampleInstrument)[(paginate
         (List.replicate 250 sampleInstrument) 5).pageStart + 0]? ∧
     (paginate (List.replicate 250 sampleInstrument) 5).currentPageInstruments ≠
       []) := by
  have h1 := paginate_spec ([] : List Instrument) 0
  have h2 := paginate_spec (List.replicate 250 sampleInstrument) 5
  have hne : List.replicate 250 sampleInstrument ≠ [] := by simp
  refine ⟨⟨h1.1 rfl, h1.2.2.1 (h1.1 rfl), (h1.2.2.2.2.2.2.2.1 rfl).1,
    (h1.2.2.2.2.2.2.2.1 rfl).2⟩, ?_, ?_, (h2.2.1 hne).1,
    h2.2.2.2.2.2.2.1 0 (by decide), (h2.2.2.2.2.2.2.2.2 hne).2.2⟩
  · decide
  · decide

/-! Claims C5 and C3: selection resynchronisation. -/

theorem resyncSelection_cons_mem (x : Instrument) (xs : List Instrument)
    (prev : Option Instrument) :
    ∃ m, resyncSelection (x :: xs) prev = some m ∧ m ∈ x :: xs := by
  cases prev with
  | none => exact ⟨x, rfl, by simp⟩
  | some p =>
    cases hfind : (x :: xs).find? (fun j => j.symbol == p.symbol) with
    | none => exact ⟨x, by simp [resyncSelection, hfind], by simp⟩
    | some m =>
      exact ⟨m, by simp [resyncSelection, hfind], List.mem_of_find?_eq_some hfind⟩

/-- Claim C5: on an empty slice the selection becomes none; with no previous
selection it becomes the first slice element; with a previous selection it
re-anchors to a slice element carrying the previously selected symbol when
one exists, and falls back to the first slice element otherwise. -/
theorem resyncSelection_spec :
    ∀ (slice : List Instrument) (prev : Option Instrument),
      (slice = [] → resyncSelection slice prev = none) ∧
      (∀ x xs, slice = x :: xs → prev = none →
        resyncSelection slice prev = some x) ∧
      (∀ x xs p, slice = x :: xs → prev = some p →
        ((∃ i ∈ slice, i.symbol = p.symbol) →
          ∃ m, resyncSelection slice prev = some m ∧ m ∈ slice ∧
            m.symbol = p.symbol) ∧
        ((∀ i ∈ slice, i.symbol ≠ p.symbol) →
          resyncSelection slice prev = some x)) := by
  intro slice prev
  refine ⟨?_, ?_, ?_⟩
  · rintro rfl
    cases prev <;> rfl
  · rintro x xs rfl rfl
    rfl
  · rintro x xs p rfl rfl
    constructor
    · rintro ⟨i, hi, hsym⟩
      cases hfind : (x :: xs).find? (fun j => j.symbol == p.symbol) with
      | none =>
        rw [List.find?_eq_none] at hfind
        exact absurd (by simpa using hsym) (by simpa using hfind i hi)
      | some m =>
        exact ⟨m, by simp [resyncSelection, hfind],
          List.mem_of_find?_eq_some hfind,
          by simpa using List.find?_some hfind⟩
    · intro hall
      have hfind : (x :: xs).find? (fun j => j.symbol == p.symbol) = none :=
        List.find?_eq_none.mpr (fun j hj => by simpa using hall j hj)
      simp [resyncSelection, hfind]

/-- Witness for C5: a stale `ETHUSDT` object re-anchors to the fresh slice
element, a vanished `XRPUSDT` selection falls back to the first element, an
empty slice clears the selection, and no previous selection picks the first
element. -/
theorem resyncSelection_spec_witness :
    resyncSelection [] (some instXRP) = none ∧
    resyncSelection [instBTC, instETH] none = some instBTC ∧
    (∃ m, resyncSelection [instBTC, instETH]
        (some ⟨"ETHUSDT", none, none, none, none⟩) = some m ∧
      m ∈ [instBTC, instETH] ∧
      m.symbol = Instrument.symbol ⟨"ETHUSDT", none, none, none, none⟩) ∧
    resyncSelection [instBTC, instETH] (some instXRP) = some instBTC := by
  have h0 := resyncSelection_spec [] (some instXRP)
  have h2 := resyncSelection_spec [instBTC, instETH]
    (some ⟨"ETHUSDT", none, none, none, none⟩)
  have h3 := resyncSelection_spec [instBTC, instETH] (some instXRP)
  refine ⟨h0.1 rfl,
    (resyncSelection_spec [instBTC, instETH] none).2.1 instBTC [instETH] rfl rfl,
    (h2.2.2 instBTC [instETH] _ rfl rfl).1 ⟨instETH, by simp, by decide⟩,
    (h3.2.2 instBTC [instETH] instXRP rfl rfl).2 (by decide)⟩

theorem paginate_slice_ne_nil (filtered : List Instrument) (page : Nat)
    (h : filtered.length ≠ 0) :
    (paginate filtered page).currentPageInstruments ≠ [] := by
  have hlt := paginate_pageStart_lt filtered page h
  rw [paginate_slice_def]
  intro hnil
  have := congrArg List.length hnil
  simp only [List.length_take, List.length_drop, List.length_nil] at this
  omega

theorem selectionResyncEffect_eq (filtered : List Instrument) (page : Nat)
    (prev : Option Instrument) (h : filtered.length ≠ 0) (x : Instrument)
    (xs : List Instrument)
    (hsl : (paginate filtered page).currentPageInstruments = x :: xs) :
    selectionResyncEffect filtered page prev = resyncSelection (x :: xs) prev := by
  have hstart : min page (max 0 ((filtered.length + 119) / 120 - 1)) * 120 =
      (paginate filtered page).pageStart := by
    rw [paginate_pageStart_def, paginate_effectivePage_def,
      paginate_totalPages_def, if_neg h]
    have h2 : (filtered.length + 119) / 120 ≠ 0 := by omega
    rw [if_neg h2, Nat.zero_max]
  simp only [selectionResyncEffect, INSTRUMENTS_PAGE_SIZE]
  rw [if_neg h]
  rw [show (120 : Nat) - 1 = 119 from rfl, hstart, ← paginate_slice_def, hsl]

/-- Claim C3: after every run of the selection resynchronisation effect, the
selection is none exactly when the current page slice is empty, and any
selected instrument is a member of the current page slice (in particular
symbol-equal to a member) — never a reference outside the visible page. -/
theorem selectionResyncEffect_spec :
    ∀ (filtered : List Instrument) (page : Nat) (prev : Option Instrument),
      (selectionResyncEffect filtered page prev = none ↔
        (paginate filtered page).currentPageInstruments = []) ∧
      (∀ i, selectionResyncEffect filtered page prev = some i →
        i ∈ (paginate filtered page).currentPageInstruments ∧
        ∃ j ∈ (paginate filtered page).currentPageInstruments,
          j.symbol = i.symbol) := by
  intro filtered page prev
  by_cases h : filtered.length = 0
  · have hf : filtered = [] := List.length_eq_zero.mp h
    subst hf
    have heff : selectionResyncEffect [] page prev = none := rfl
    have hsl : (paginate ([] : List Instrument) page).currentPageInstruments
        = [] := by
      rw [paginate_slice_def]
      simp
    refine ⟨by simp [heff, hsl], ?_⟩
    intro i hi
    rw [heff] at hi
    exact Option.noConfusion hi
  · obtain ⟨x, xs, hsl⟩ :
        ∃ x xs, (paginate filtered page).currentPageInstruments = x :: xs := by
      cases hc : (paginate filtered page).currentPageInstruments with
      | nil => exact absurd hc (paginate_slice_ne_nil filtered page h)
      | cons a t => exact ⟨a, t, rfl⟩
    have heq := selectionResyncEffect_eq filtered page prev h x xs hsl
    obtain ⟨m, hm, hmem⟩ := resyncSelection_cons_mem x xs prev
    refine ⟨?_, ?_⟩
    · rw [heq, hm, hsl]
      simp
    · intro i hi
      rw [heq, hm] at hi
      obtain rfl : m = i := Option.some.inj hi
      rw [hsl]
      exact ⟨hmem, m, hmem, rfl⟩

/-- Witness for C3: with two visible instruments and a vanished previous
selection the effect selects a member of the page slice, and with no
instruments the effect clears the selection. -/
theorem selectionResyncEffect_spec_witness :
    (instBTC ∈ (paginate [instBTC, instETH] 0).currentPageInstruments ∧
      ∃ j ∈ (paginate [instBTC, instETH] 0).currentPageInstruments,
        j.symbol = instBTC.symbol) ∧
    selectionResyncEffect [] 7 none = none := by
  have h := selectionResyncEffect_spec [instBTC, instETH] 0 (some instXRP)
  exact ⟨h.2 instBTC (by decide),
    (selectionResyncEffect_spec [] 7 none).1.mpr (by rw [paginate_slice_def]; simp)⟩

/-! Claim C2: payload collection. -/

theorem objSet_append {α : Type} (l : List (String × α)) (k : String) (v : α)
    (h : k ∉ l.map Prod.fst) : objSet l k v = l ++ [(k, v)] := by
  induction l with
  | nil => rfl
  | cons a t ih =>
    obtain ⟨k', v'⟩ := a
    simp only [List.map_cons, List.mem_cons] at h
    push_neg at h
    rw [objSet, if_neg (Ne.symm h.1), ih h.2]
    rfl

theorem collectGo_err_required (configValues : List (String × String)) :
    ∀ (pre : List SettingsSchema) (f : SettingsSchema)
      (suf : List SettingsSchema) (acc : List (String × ConfigValue)),
      (∀ g ∈ pre, (jsTrim (fieldRaw configValues g) = "" → g.required = false) ∧
        (jsTrim (fieldRaw configValues g) ≠ "" →
          ∃ v, parseConfigValue g (fieldRaw configValues g) = .ok v)) →
      jsTrim (fieldRaw configValues f) = "" → f.required = true →
      collectGo configValues (pre ++ f :: suf) acc =
        .err (f.name ++ " is required") := by
  intro pre
  induction pre with
  | nil =>
    intro f suf acc _ hemp hreq
    simp only [List.nil_append, collectGo]
    rw [if_pos (by simpa [fieldRaw] using hemp), if_pos hreq]
  | cons g pre' ih =>
    intro f suf acc hpre hemp hreq
    have hg := hpre g (by simp)
    have hrest : ∀ g' ∈ pre',
        (jsTrim (fieldRaw configValues g') = "" → g'.required = false) ∧
        (jsTrim (fieldRaw configValues g') ≠ "" →
          ∃ v, parseConfigValue g' (fieldRaw configValues g') = .ok v) :=
      fun g' hg' => hpre g' (by simp [hg'])
    simp only [List.cons_append, collectGo]
    by_cases hgemp : jsTrim (fieldRaw configValues g) = ""
    · rw [if_pos (by simpa [fieldRaw] using hgemp),
        if_neg (by simp [hg.1 hgemp])]
      exact ih f suf acc hrest hemp hreq
    · rw [if_neg (by simpa [fieldRaw] using hgemp)]
      obtain ⟨v, hv⟩ := hg.2 hgemp
      rw [show parseConfigValue g ((configValues.lookup g.name).getD "") = .ok v
        from by simpa [fieldRaw] using hv]
      exact ih f suf (objSet acc g.name v) hrest hemp hreq

theorem collectGo_err_parse (configValues : List (String × String)) :
    ∀ (pre : List SettingsSchema) (f : SettingsSchema)
      (suf : List SettingsSchema) (acc : List (String × ConfigValue))
      (e : String),
      (∀ g ∈ pre, (jsTrim (fieldRaw configValues g) = "" → g.required = false) ∧
        (jsTrim (fieldRaw configValues g) ≠ "" →
          ∃ v, parseConfigValue g (fieldRaw configValues g) = .ok v)) →
      jsTrim (fieldRaw configValues f) ≠ "" →
      parseConfigValue f (fieldRaw configValues f) = .err e →
      collectGo configValues (pre ++ f :: suf) acc = .err e := by
  intro pre
  induction pre with
  | nil =>
    intro f suf acc e _ hne hpe
    simp only [List.nil_append, collectGo]
    rw [if_neg (by simpa [fieldRaw] using hne)]
    rw [show parseConfigValue f ((configValues.lookup f.name).getD "") = .err e
      from by simpa [fieldRaw] using hpe]
  | cons g pre' ih =>
    intro f suf acc e hpre hne hpe
    have hg := hpre g (by simp)
    have hrest : ∀ g' ∈ pre',
        (jsTrim (fieldRaw configValues g') = "" → g'.required = false) ∧
        (jsTrim (fieldRaw configValues g') ≠ "" →
          ∃ v, parseConfigValue g' (fieldRaw configValues g') = .ok v) :=
      fun g' hg' => hpre g' (by simp [hg'])
    simp only [List.cons_append, collectGo]
    by_cases hgemp : jsTrim (fieldRaw configValues g) = ""
    · rw [if_pos (by simpa [fieldRaw] using hgemp),
        if_neg (by simp [hg.1 hgemp])]
      exact ih f suf acc e hrest hne hpe
    · rw [if_neg (by simpa [fieldRaw] using hgemp)]
      obtain ⟨v, hv⟩ := hg.2 hgemp
      rw [show parseConfigValue g ((configValues.lookup g.name).getD "") = .ok v
        from by simpa [fieldRaw] using hv]
      exact ih f suf (objSet acc g.name v) e hrest hne hpe

theorem collectGo_ok (configValues : List (String × String)) :
    ∀ (l : List SettingsSchema) (acc : List (String × ConfigValue))
      (cfg : List (String × ConfigValue)),
      (acc.map Prod.fst ++ l.map SettingsSchema.name).Nodup →
      collectGo configValues l acc = .ok cfg →
      cfg.map Prod.fst = acc.map Prod.fst ++
        (l.filter (fun g => !(jsTrim (fieldRaw configValues g) == ""))).map
          SettingsSchema.name ∧
      ∀ kv ∈ cfg, kv ∈ acc ∨ ∃ g ∈ l, g.name = kv.1 ∧
        parseConfigValue g (fieldRaw configValues g) = .ok kv.2 := by
  intro l
  induction l with
  | nil =>
    intro acc cfg _ hok
    obtain rfl : acc = cfg := CollectResult.ok.inj hok
    exact ⟨by simp, fun kv hkv => Or.inl hkv⟩
  | cons s rest ih =>
    intro acc cfg hnd hok
    simp only [collectGo] at hok
    by_cases hemp : jsTrim ((configValues.lookup s.name).getD "") = ""
    · rw [if_pos hemp] at hok
      by_cases hreq : s.required = true
      · rw [if_pos hreq] at hok
        exact absurd hok (by simp)
      · rw [if_neg hreq] at hok
        have hnd' : (acc.map Prod.fst ++ rest.map SettingsSchema.name).Nodup := by
          refine hnd.sublist ?_
          simp only [List.map_cons]
          exact (List.sublist_cons_self s.name _).append_left _
        have hres := ih acc cfg hnd' hok
        refine ⟨?_, ?_⟩
        · rw [hres.1]
          congr 1
          rw [List.filter_cons, if_neg (by simp [fieldRaw, hemp])]
        · intro kv hkv
          rcases hres.2 kv hkv with h | ⟨g, hg, hh⟩
          · exact Or.inl h
          · exact Or.inr ⟨g, by simp [hg], hh⟩
    · rw [if_neg hemp] at hok
      cases hpv : parseConfigValue s ((configValues.lookup s.name).getD "") with
      | err e =>
        rw [hpv] at hok
        exact absurd hok (by simp)
      | ok v =>
        rw [hpv] at hok
        have hkey : s.name ∉ acc.map Prod.fst := by
          intro hmem
          exact List.disjoint_of_nodup_append hnd hmem (by simp)
        have hobj := objSet_append acc s.name v hkey
        have hnd'' : ((objSet acc s.name v).map Prod.fst ++
            rest.map SettingsSchema.name).Nodup := by
          rw [hobj]
          simpa [List.append_assoc] using hnd
        have hres := ih (objSet acc s.name v) cfg hnd'' hok
        refine ⟨?_, ?_⟩
        · rw [hres.1, hobj, List.filter_cons,
            if_pos (by simp [fieldRaw, hemp])]
          simp [List.append_assoc]
        · intro kv hkv
          rcases hres.2 kv hkv with h | ⟨g, hg, hh⟩
          · rw [hobj] at h
            rcases List.mem_append.mp h with h | h
            · exact Or.inl h
            · have hkv2 : kv = (s.name, v) := by simpa using h
              subst hkv2
              exact Or.inr ⟨s, by simp, rfl, by simpa [fieldRaw] using hpv⟩
          · exact Or.inr ⟨g, by simp [hg], hh⟩

/-- Claim C2: `collectPayload` walks the schema in order; it fails with
`FieldError("<name> is required")` at the first required field whose value is
empty after trimming, regardless of anything after it; it propagates the
first coercer error verbatim; and on success the payload keys are exactly the
schema's non-empty fields in schema order, each bound to its successful
coercion — no key outside the schema is ever present. -/
theorem collectConfigPayload_spec :
    ∀ (metadata : AdapterMetadata) (configValues : List (String × String)),
      (∀ pre f suf, metadata.settingsSchema = pre ++ f :: suf →
        (∀ g ∈ pre,
          (jsTrim (fieldRaw configValues g) = "" → g.required = false) ∧
          (jsTrim (fieldRaw configValues g) ≠ "" →
            ∃ v, parseConfigValue g (fieldRaw configValues g) = .ok v)) →
        jsTrim (fieldRaw configValues f) = "" → f.required = true →
        collectConfigPayload metadata configValues =
          .err (f.name ++ " is required")) ∧
      (∀ pre f suf e, metadata.settingsSchema = pre ++ f :: suf →
        (∀ g ∈ pre,
          (jsTrim (fieldRaw configValues g) = "" → g.required = false) ∧
          (jsTrim (fieldRaw configValues g) ≠ "" →
            ∃ v, parseConfigValue g (fieldRaw configValues g) = .ok v)) →
        jsTrim (fieldRaw configValues f) ≠ "" →
        parseConfigValue f (fieldRaw configValues f) = .err e →
        collectConfigPayload metadata configValues = .err e) ∧
      ((metadata.settingsSchema.map SettingsSchema.name).Nodup →
        ∀ cfg, collectConfigPayload metadata configValues = .ok cfg →
          cfg.map Prod.fst =
            (metadata.settingsSchema.filter
              (fun g => !(jsTrim (fieldRaw configValues g) == ""))).map
              SettingsSchema.name ∧
          ∀ kv ∈ cfg, ∃ g ∈ metadata.settingsSchema, g.name = kv.1 ∧
            parseConfigValue g (fieldRaw configValues g) = .ok kv.2) := by
  intro metadata configValues
  refine ⟨?_, ?_, ?_⟩
  · intro pre f suf heq hpre hemp hreq
    rw [collectConfigPayload, heq]
    exact collectGo_err_required configValues pre f suf [] hpre hemp hreq
  · intro pre f suf e heq hpre hne hpe
    rw [collectConfigPayload, heq]
    exact collectGo_err_parse configValues pre f suf [] e hpre hne hpe
  · intro hnd cfg hok
    rw [collectConfigPayload] at hok
    have hres := collectGo_ok configValues metadata.settingsSchema [] cfg
      (by simpa using hnd) hok
    refine ⟨by simpa using hres.1, ?_⟩
    intro kv hkv
    rcases hres.2 kv hkv with h | h
    · exact absurd h (by simp)
    · exact h

/-- Witness for C2: with required `a` blank the collection fails naming `a`
whatever `b` holds; with `a` set and optional `b` absent the payload is
exactly the singleton for `a`, bound to its coercion. -/
theorem collectConfigPayload_spec_witness :
    collectConfigPayload sampleAdapter [("a", "  "), ("b", "x")] =
      CollectResult.err "a is required" ∧
    collectConfigPayload sampleAdapter [("a", "  ")] =
      CollectResult.err "a is required" ∧
    (∃ g ∈ sampleAdapter.settingsSchema, g.name = "a" ∧
      parseConfigValue g (fieldRaw [("a", "x")] g) =
        .ok (ConfigValue.vStr "x")) ∧
    [("a", ConfigValue.vStr "x")].map Prod.fst =
      (sampleAdapter.settingsSchema.filter
        (fun g => !(jsTrim (fieldRaw [("a", "x")] g) == ""))).map
        SettingsSchema.name := by
  have h3 := (collectConfigPayload_spec sampleAdapter [("a", "x")]).2.2
    (by decide) [("a", ConfigValue.vStr "x")] (by decide)
  refine ⟨?_, ?_, h3.2 ("a", ConfigValue.vStr "x") (by simp), h3.1⟩
  · exact (collectConfigPayload_spec sampleAdapter [("a", "  "), ("b", "x")]).1
      [] sampleFieldA [sampleFieldB] rfl
      (by intro g hg; exact absurd hg (by simp)) (by decide) (by decide)
  · exact (collectConfigPayload_spec sampleAdapter [("a", "  ")]).1
      [] sampleFieldA [sampleFieldB] rfl
      (by intro g hg; exact absurd hg (by simp)) (by decide) (by decide)

/-! Claim C6: the instrument filter. -/

theorem jsToLower_eq_empty {s : String} (h : jsToLower s = "") : s = "" := by
  apply String.ext
  have hd : s.data.map Char.toLower = [] := congrArg String.data h
  simpa using List.map_eq_nil_iff.mp hd

/-- Claim C6: with an empty trimmed query the filter returns the instrument
list unchanged; otherwise it returns an order-preserving subsequence holding
exactly the instruments whose lowercased symbol, base-asset value or
quote-asset value contains the lowercased query as a contiguous segment,
where base and quote resolve the primary field first, then the legacy field,
then the empty string. -/
theorem filteredInstruments_spec :
    ∀ (instruments : List Instrument) (instrumentQuery : String),
      (jsTrim instrumentQuery = "" →
        filteredInstruments instruments instrumentQuery = instruments) ∧
      (jsTrim instrumentQuery ≠ "" →
        (filteredInstruments instruments instrumentQuery).Sublist instruments ∧
        ∀ i, i ∈ filteredInstruments instruments instrumentQuery ↔
          i ∈ instruments ∧
          (SubSeg (jsToLower (jsTrim instrumentQuery)).data
              (jsToLower i.symbol).data ∨
           SubSeg (jsToLower (jsTrim instrumentQuery)).data
              (jsToLower ((i.baseAsset.or i.base_currency).getD "")).data ∨
           SubSeg (jsToLower (jsTrim instrumentQuery)).data
              (jsToLower ((i.quoteAsset.or i.quote_currency).getD "")).data)) := by
  intro instruments instrumentQuery
  constructor
  · intro h
    simp only [filteredInstruments]
    rw [if_pos (by rw [h]; rfl)]
  · intro h
    have hq : jsToLower (jsTrim instrumentQuery) ≠ "" :=
      fun h0 => h (jsToLower_eq_empty h0)
    simp only [filteredInstruments]
    rw [if_neg hq]
    refine ⟨List.filter_sublist _, ?_⟩
    intro i
    simp only [List.mem_filter, Bool.or_eq_true, jsIncludes_iff,
      instrumentBaseValue, instrumentQuoteValue]
    tauto

/-- Witness for C6: query `"btc"` keeps `BTCUSDT` and drops `ETHUSDT`, and the
empty query returns the list unchanged. -/
theorem filteredInstruments_spec_witness :
    instBTC ∈ filteredInstruments [instBTC, instETH] "btc" ∧
    instETH ∉ filteredInstruments [instBTC, instETH] "btc" ∧
    filteredInstruments [instBTC, instETH] "" = [instBTC, instETH] := by
  have h := filteredInstruments_spec [instBTC, instETH] "btc"
  have h2 := (h.2 (by decide)).2
  refine ⟨?_, ?_, (filteredInstruments_spec [instBTC, instETH] "").1 rfl⟩
  · exact (h2 instBTC).mpr ⟨by simp,
      Or.inl ⟨[], ['u', 's', 'd', 't'], by decide⟩⟩
  · intro hmem
    rcases ((h2 instETH).mp hmem).2 with hd | hd | hd <;>
      exact absurd ((hasSeg_iff _ _).mpr hd) (by decide)

/-! Claim C7: submission preconditions and gating. -/

/-- Claim C7: on submission the checks run in order — empty trimmed name
blocks with `"Provider name is required"`; then a missing adapter blocks with
`"Adapter selection is required"`; only with both satisfied does payload
collection run, whose error blocks with that message; and a blocked
submission is never a submitted one, so no network request is issued on any
failure. -/
theorem handleFormSubmit_spec :
    ∀ (adapters : List AdapterMetadata) (st : FormState),
      (jsTrim st.name = "" →
        handleFormSubmit adapters st = .blocked "Provider name is required") ∧
      (jsTrim st.name ≠ "" →
        adapters.find? (fun a => a.identifier == st.adapter) = none →
        handleFormSubmit adapters st =
          .blocked "Adapter selection is required") ∧
      (∀ ad, jsTrim st.name ≠ "" →
        adapters.find? (fun a => a.identifier == st.adapter) = some ad →
        (∀ e, collectConfigPayload ad st.configValues = .err e →
          handleFormSubmit adapters st = .blocked e) ∧
        (∀ cfg, collectConfigPayload ad st.configValues = .ok cfg →
          handleFormSubmit adapters st =
            .submitted ⟨jsTrim st.name, ad.identifier, cfg, st.enabled⟩)) ∧
      (∀ msg, handleFormSubmit adapters st = .blocked msg →
        ∀ payload, handleFormSubmit adapters st ≠ .submitted payload) := by
  intro adapters st
  refine ⟨?_, ?_, ?_, ?_⟩
  · intro h
    simp only [handleFormSubmit]
    rw [if_pos h]
  · intro h hfind
    simp only [handleFormSubmit]
    rw [if_neg h]
    simp only [hfind]
  · intro ad h hfind
    constructor
    · intro e he
      simp only [handleFormSubmit]
      rw [if_neg h]
      simp only [hfind, he]
    · intro cfg hc
      simp only [handleFormSubmit]
      rw [if_neg h]
      simp only [hfind, hc]
  · intro msg hb payload hs
    rw [hb] at hs
    exact SubmitOutcome.noConfusion hs

/-- Witness for C7: a blank name blocks, a missing adapter blocks, a blank
required field blocks with the field error, and a valid form submits the
collected payload with the trimmed name. -/
theorem handleFormSubmit_spec_witness :
    handleFormSubmit [sampleAdapter] ⟨"  ", "ad1", [], true⟩ =
      SubmitOutcome.blocked "Provider name is required" ∧
    handleFormSubmit [sampleAdapter] ⟨"p1", "nope", [], true⟩ =
      SubmitOutcome.blocked "Adapter selection is required" ∧
    handleFormSubmit [sampleAdapter] ⟨"p1", "ad1", [("a", "  ")], true⟩ =
      SubmitOutcome.blocked "a is required" ∧
    handleFormSubmit [sampleAdapter] ⟨" p1 ", "ad1", [("a", "x")], false⟩ =
      SubmitOutcome.submitted
        ⟨"p1", "ad1", [("a", ConfigValue.vStr "x")], false⟩ := by
  refine ⟨(handleFormSubmit_spec [sampleAdapter] ⟨"  ", "ad1", [], true⟩).1
      (by decide),
    (handleFormSubmit_spec [sampleAdapter] ⟨"p1", "nope", [], true⟩).2.1
      (by decide) (by decide), ?_, ?_⟩
  · exact ((handleFormSubmit_spec [sampleAdapter]
      ⟨"p1", "ad1", [("a", "  ")], true⟩).2.2.1 sampleAdapter (by decide)
      (by decide)).1 "a is required" (by decide)
  · exact ((handleFormSubmit_spec [sampleAdapter]
      ⟨" p1 ", "ad1", [("a", "x")], false⟩).2.2.1 sampleAdapter (by decide)
      (by decide)).2 [("a", ConfigValue.vStr "x")] (by decide)

/-! Claim C8: initial value construction and adapter switching. -/

theorem lookup_map_name (l : List SettingsSchema) (F : SettingsSchema → String)
    (g : SettingsSchema) (hg : g ∈ l)
    (hnd : (l.map SettingsSchema.name).Nodup) :
    (l.map (fun s => (s.name, F s))).lookup g.name = some (F g) := by
  induction l with
  | nil => cases hg
  | cons s rest ih =>
    simp only [List.map_cons] at hnd
    rcases List.mem_cons.mp hg with rfl | hg'
    · simp [List.lookup_cons]
    · have hne : g.name ≠ s.name := by
        intro he
        exact (List.nodup_cons.mp hnd).1
          (he ▸ List.mem_map.mpr ⟨g, hg', rfl⟩)
      rw [List.map_cons, List.lookup_cons,
        show (g.name == s.name) = false from beq_eq_false_iff_ne.mpr hne]
      exact ih hg' (List.nodup_cons.mp hnd).2

theorem buildFold_append (existing : Option (List (String × JsValue))) :
    ∀ (l : List SettingsSchema) (acc : List (String × String)),
      (acc.map Prod.fst ++ l.map SettingsSchema.name).Nodup →
      l.foldl (fun values setting =>
          objSet values setting.name (buildOne existing setting)) acc =
        acc ++ l.map (fun s => (s.name, buildOne existing s)) := by
  intro l
  induction l with
  | nil =>
    intro acc _
    simp
  | cons s rest ih =>
    intro acc hnd
    simp only [List.foldl_cons]
    have hkey : s.name ∉ acc.map Prod.fst := fun hm =>
      List.disjoint_of_nodup_append hnd hm (by simp)
    rw [objSet_append acc s.name _ hkey,
      ih (acc ++ [(s.name, buildOne existing s)])
        (by simpa [List.append_assoc] using hnd)]
    simp [List.append_assoc]

theorem objSet_keys {α : Type} (l : List (String × α)) (k : String) (v : α) :
    ∀ k', k' ∈ (objSet l k v).map Prod.fst →
      k' ∈ l.map Prod.fst ∨ k' = k := by
  induction l with
  | nil =>
    intro k' h
    simp only [objSet, List.map_cons, List.map_nil] at h
    exact Or.inr (by simpa using h)
  | cons a t ih =>
    obtain ⟨k1, v1⟩ := a
    intro k' h
    by_cases hk : k1 = k
    · rw [objSet, if_pos hk] at h
      simp only [List.map_cons, List.mem_cons] at h
      rcases h with h | h
      · exact Or.inr h
      · exact Or.inl (by simp [h])
    · rw [objSet, if_neg hk] at h
      simp only [List.map_cons, List.mem_cons] at h
      rcases h with h | h
      · exact Or.inl (by simp [h])
      · rcases ih k' h with h' | h'
        · exact Or.inl (by simp [h'])
        · exact Or.inr h'

theorem buildFold_keys (existing : Option (List (String × JsValue))) :
    ∀ (l : List SettingsSchema) (acc : List (String × String)) (k : String),
      k ∈ (l.foldl (fun values setting =>
          objSet values setting.name (buildOne existing setting)) acc).map
        Prod.fst →
      k ∈ acc.map Prod.fst ∨ k ∈ l.map SettingsSchema.name := by
  intro l
  induction l with
  | nil =>
    intro acc k h
    exact Or.inl h
  | cons s rest ih =>
    intro acc k h
    simp only [List.foldl_cons] at h
    rcases ih (objSet acc s.name (buildOne existing s)) k h with h' | h'
    · rcases objSet_keys acc s.name (buildOne existing s) k h' with h'' | h''
      · exact Or.inl h''
      · exact Or.inr (by simp [h''])
    · exact Or.inr (by simp [h'])

/-- Claim C8: `buildValues` produces exactly the schema's field names as keys,
in schema order; each field's value is the stringified existing value when the
existing record supplies that name (null stringifying to the empty string),
else the stringified non-null declared default, else the empty string; and on
an adapter switch the rebuilt map's keys all come from the newly selected
adapter's schema, so nothing carries over from the previous adapter. -/
theorem buildConfigValues_spec :
    ∀ (m : AdapterMetadata) (existing : Option (List (String × JsValue))),
      ((m.settingsSchema.map SettingsSchema.name).Nodup →
        (buildConfigValues (some m) existing).map Prod.fst =
          m.settingsSchema.map SettingsSchema.name ∧
        ∀ s ∈ m.settingsSchema,
          (∀ ex v, existing = some ex → ex.lookup s.name = some v →
            (buildConfigValues (some m) existing).lookup s.name =
              some (valueToString v)) ∧
          (existing.bind (fun ex => ex.lookup s.name) = none →
            ∀ d, s.default = some d → d ≠ .jnull →
              (buildConfigValues (some m) existing).lookup s.name =
                some (valueToString d)) ∧
          (existing.bind (fun ex => ex.lookup s.name) = none →
            (s.default = none ∨ s.default = some .jnull) →
            (buildConfigValues (some m) existing).lookup s.name = some "")) ∧
      (∀ (adapters : List AdapterMetadata) (prev : FormState)
          (identifier : String) (k : String),
        k ∈ (handleAdapterChange adapters prev identifier).configValues.map
          Prod.fst →
        ∃ meta, adapters.find? (fun a => a.identifier == identifier) =
          some meta ∧ k ∈ meta.settingsSchema.map SettingsSchema.name) := by
  intro m existing
  constructor
  · intro hnd
    have hb : buildConfigValues (some m) existing =
        m.settingsSchema.map (fun s => (s.name, buildOne existing s)) := by
      simp only [buildConfigValues]
      exact buildFold_append existing m.settingsSchema [] (by simpa using hnd)
    refine ⟨by rw [hb]; simp, ?_⟩
    intro s hs
    have hl : (buildConfigValues (some m) existing).lookup s.name =
        some (buildOne existing s) := by
      rw [hb]
      exact lookup_map_name m.settingsSchema (buildOne existing) s hs hnd
    refine ⟨?_, ?_, ?_⟩
    · intro ex v hex hv
      rw [hl]
      simp [buildOne, hex, hv]
    · intro hbind d hd hne
      rw [hl]
      simp [buildOne, hbind, hd, hne]
    · intro hbind hdef
      rw [hl]
      rcases hdef with hdef | hdef <;> simp [buildOne, hbind, hdef]
  · intro adapters prev identifier k hk
    simp only [handleAdapterChange] at hk
    cases hfind : adapters.find? (fun a => a.identifier == identifier) with
    | none =>
      rw [hfind] at hk
      simp [buildConfigValues] at hk
    | some meta =>
      rw [hfind] at hk
      refine ⟨meta, rfl, ?_⟩
      simp only [buildConfigValues] at hk
      rcases buildFold_keys none meta.settingsSchema [] k hk with h | h
      · simp at h
      · exact h

/-- Witness for C8: with a schema declaring `host` (default `localhost`) and
`apiKey` (required, no default) and an existing record supplying only
`apiKey`, the built map keeps schema order and resolves existing over
default over empty; switching to adapter `ad2` yields only `ad2` keys. -/
theorem buildConfigValues_spec_witness :
    (buildConfigValues (some sampleAdapterB)
        (some [("apiKey", JsValue.jstr "k1")])).map Prod.fst =
      sampleAdapterB.settingsSchema.map SettingsSchema.name ∧
    (buildConfigValues (some sampleAdapterB)
        (some [("apiKey", JsValue.jstr "k1")])).lookup "apiKey" = some "k1" ∧
    (buildConfigValues (some sampleAdapterB)
        (some [("apiKey", JsValue.jstr "k1")])).lookup "host" =
      some "localhost" ∧
    (∃ meta, [sampleAdapter, sampleAdapterB].find?
        (fun a => a.identifier == "ad2") = some meta ∧
      "host" ∈ meta.settingsSchema.map SettingsSchema.name) := by
  have h := buildConfigValues_spec sampleAdapterB
    (some [("apiKey", JsValue.jstr "k1")])
  have h1 := h.1 (by decide)
  refine ⟨h1.1, ?_, ?_, ?_⟩
  · exact (h1.2 ⟨"apiKey", "string", none, true⟩ (by decide)).1
      [("apiKey", JsValue.jstr "k1")] (JsValue.jstr "k1") rfl (by decide)
  · exact (h1.2 ⟨"host", "string", some (.jstr "localhost"), false⟩
      (by decide)).2.1 (by decide) (JsValue.jstr "localhost") rfl (by decide)
  · exact h.2 [sampleAdapter, sampleAdapterB]
      ⟨"p", "ad1", [("a", "x")], true⟩ "ad2" "host" (by decide)

/-! Claim C9: page reset on query change. -/

theorem clampPageEffect_zero (total : Nat) : clampPageEffect total 0 = 0 := by
  simp only [clampPageEffect]
  split_ifs with h1 h2
  · rfl
  · omega
  · rfl

/-- Claim C9: in every step of the view state machine in which the query
changes — an operator edit of the query, or the detail-view reset — the
stored requested page is 0 once the effect cascade has run, so the pagination
computed from the post-step state uses page 0 and never a page index carried
over from the previous query. -/
theorem setQueryEvent_page_spec :
    ∀ (instruments : List Instrument) (st : ViewState) (q : String),
      q ≠ st.query →
      (setQueryEvent instruments st q).page = 0 ∧
      (setQueryEvent instruments st q).query = q ∧
      paginate (filteredInstruments instruments q)
          (setQueryEvent instruments st q).page =
        paginate (filteredInstruments instruments q) 0 ∧
      detailResetState.page = 0 := by
  intro instruments st q _
  have hpage : (setQueryEvent instruments st q).page = 0 :=
    clampPageEffect_zero (filteredInstruments instruments q).length
  exact ⟨hpage, rfl, by rw [hpage], rfl⟩

/-- Witness for C9: editing the query from `""` to `"x"` at stored page 3
leaves the post-step page at 0. -/
theorem setQueryEvent_page_spec_witness :
    (setQueryEvent [] ⟨"", 3, none⟩ "x").page = 0 ∧
    detailResetState.page = 0 :=
  ⟨(setQueryEvent_page_spec [] ⟨"", 3, none⟩ "x" (by decide)).1,
   (setQueryEvent_page_spec [] ⟨"", 3, none⟩ "x" (by decide)).2.2.2⟩
